import Mathlib

/-!
Verification of the dialogue search module of the `plugin-teach` package
(`src/packages/plugin-teach/src/search.ts`).

The TypeScript module is shallowly embedded below.  JavaScript strings are
modelled as Lean `String` (a packed `List Char`); the handful of string
primitives the module uses (`startsWith`, `endsWith`, `slice`, `trim`,
`trimStart`, `split` on the line-break regex, global replacement of the
image-marker regex) are embedded as executable character-list functions with
the same semantics.  The persistent dialogue store (`getDialogues` in
`utils.ts`) is out of scope per the spec and is modelled as a filter over a
finite in-memory database; redirection resolution, rendering, merging,
pagination and the `search` dispatcher are translated from the source.
-/

set_option linter.unusedVariables false

namespace Teach

/-- A stored Q&A record (`Dialogue` in `database.ts`, fields as used by
`search.ts`): `id`, `original` (question text as authored), `answer`,
and `flag` (a bitset). -/
structure Dialogue where
  id : Nat
  original : String
  answer : String
  flag : Nat
deriving Repr, DecidableEq, Inhabited

/-- A filter specification (`DialogueTest`): optional question text, optional
answer text, and the keyword-matching flag. -/
structure DialogueTest where
  question : Option String := none
  answer : Option String := none
  keyword : Bool := false
deriving Repr, DecidableEq, Inhabited

/-- The configuration surface recognized by `search.ts` (`TeachConfig`
augmentation): all three options are optional, with defaults applied at the
use sites exactly as the destructuring defaults do in the source. -/
structure TeachConfig where
  itemsPerPage : Option Nat := none
  mergeThreshold : Option Nat := none
  maxAnswerLength : Option Nat := none
deriving Repr, DecidableEq, Inhabited

/-- `SearchDetails` from `utils.ts`: an array of short label strings plus two
optional named slots. -/
structure SearchDetails where
  labels : List String := []
  questionType : Option String := none
  answerType : Option String := none
deriving Repr, DecidableEq, Inhabited

/-- Modelled from the spec: `DialogueFlag` (`database.ts`, not part of the
sources under verification) is a bitset of behavioral flags with a
keyword bit; its concrete position is unspecified, so it is modelled as
bit 0. -/
def keywordFlagBit : Nat := 1

/-- A dialogue together with the transient `_redirections` field attached by
redirection resolution: `none` models an absent field, `some children` a
field holding the (recursively annotated) redirected-to dialogues. -/
inductive ADialogue where
  | mk (dialogue : Dialogue) (redirections : Option (List ADialogue))
deriving Repr, Inhabited

/-- Underlying record of an annotated dialogue. -/
def ADialogue.dialogue : ADialogue → Dialogue
  | .mk d _ => d

/-- Transient `_redirections` field of an annotated dialogue. -/
def ADialogue.redirections : ADialogue → Option (List ADialogue)
  | .mk _ r => r

/-! ### Character-list string primitives -/

/-- JS `String#startsWith`: `p` is a prefix of `s`. -/
def hasPrefixList (p s : List Char) : Bool := s.take p.length == p

/-- JS `String#includes`: `p` occurs as a contiguous substring of `s`. -/
def substrIn (p : List Char) : List Char → Bool
  | [] => p.isEmpty
  | c :: cs => hasPrefixList p (c :: cs) || substrIn p cs

/-- JS `String#endsWith`: `p` is a suffix of `s`. -/
def endsWithStr (s p : String) : Bool := p.data.isSuffixOf s.data

/-- JS `String#trim`: remove whitespace from both ends. -/
def trimChars (l : List Char) : List Char :=
  ((l.dropWhile Char.isWhitespace).reverse.dropWhile Char.isWhitespace).reverse

/-- The effect of `source.split(/(\r?\n|\$n)/g)` as used on line 42 of
`search.ts`: returns the text before the first line-break marker (a real
newline, optionally preceded by a carriage return, or the literal
two-character sequence `$n`) together with a flag saying whether any marker
occurred (so that `lines.length > 1` in the source corresponds to the flag
being `true` and `lines[0]` to the returned segment). -/
def firstSegment : List Char → List Char × Bool
  | [] => ([], false)
  | '\r' :: '\n' :: _ => ([], true)
  | '\n' :: _ => ([], true)
  | '$' :: 'n' :: _ => ([], true)
  | c :: cs =>
    let r := firstSegment cs
    (c :: r.1, r.2)

/-- The image-marker replacement `source.replace(/\[CQ:image,[^\]]+\]/g, '[图片]')`
(line 47 of `search.ts`): scan left to right; at each position where the
literal `[CQ:image,` is followed by at least one character other than `]`
and then a `]`, replace the whole match by `[图片]` and continue after it.
The scan step is bounded by an explicit fuel argument so that the recursion
is structural; each step consumes at least one character, so fuel equal to
the string length (as supplied by `replaceImages`) never runs out. -/
def replaceImagesFuel : Nat → List Char → List Char
  | 0, l => l
  | _ + 1, [] => []
  | n + 1, c :: cs =>
    if hasPrefixList "[CQ:image,".data (c :: cs) then
      match ((c :: cs).drop 10).dropWhile (fun x => x ≠ ']'),
            ((c :: cs).drop 10).takeWhile (fun x => x ≠ ']') with
      | ']' :: rest, _ :: _ => "[图片]".data ++ replaceImagesFuel n rest
      | _, _ => c :: replaceImagesFuel n cs
    else
      c :: replaceImagesFuel n cs

/-- The image-marker replacement on a whole character list. -/
def replaceImages (l : List Char) : List Char := replaceImagesFuel l.length l

/-- JS `'=> '.repeat(padding)`. -/
def repeatStr (s : String) (n : Nat) : String := String.join (List.replicate n s)

/-! ### AnswerFormatter (`formatAnswer`, lines 40-60 of `search.ts`) -/

/-- The two-character ellipsis marker `……`. -/
def ellipsisMarker : String := "……"

/-- The ellipsis-append rule from lines 52-58 of `search.ts`, applied when
truncation occurred: if the string already ends with `……` it is returned
unchanged; else if it ends with a single `…` one more `…` is appended;
otherwise `……` is appended. -/
def appendEllipsis (s : String) : String :=
  if endsWithStr s "……" then s
  else if endsWithStr s "…" then s ++ "…"
  else s ++ "……"

/-- Lines 41-51 of `formatAnswer`: keep only the first line (trimmed) when a
line-break marker occurs, replace image markers by `[图片]`, and cut to
`maxAnswerLength` characters; returns the resulting string together with
the `trimmed` flag. -/
def formatAnswerCore (source : String) (maxAnswerLength : Nat) : String × Bool :=
  let seg := firstSegment source.data
  let s1 := if seg.2 then String.mk (trimChars seg.1) else source
  let s2 := String.mk (replaceImages s1.data)
  if s2.length > maxAnswerLength then (String.mk (s2.data.take maxAnswerLength), true)
  else (s2, seg.2)

/-- `formatAnswer` (lines 40-60 of `search.ts`); `maxAnswerLength` defaults
to 100 when not configured. -/
def formatAnswer (source : String) (cfg : TeachConfig) : String :=
  let r := formatAnswerCore source (cfg.maxAnswerLength.getD 100)
  if r.2 then appendEllipsis r.1 else r.1

/-! ### DetailCollector (`getDetails`, `formatDetails`, `formatPrefix`) -/

/-- `getDetails` (lines 62-67): run the extensibility hook, then force the
question-type label to `关键词` when the keyword flag bit is set. -/
def getDetails (hook : Dialogue → SearchDetails) (d : Dialogue) : SearchDetails :=
  let details := hook d
  if d.flag &&& keywordFlagBit ≠ 0 then { details with questionType := some "关键词" }
  else details

/-- `formatDetails` (lines 69-71). -/
def formatDetails (d : Dialogue) (details : SearchDetails) : String :=
  toString d.id ++ ". " ++
    (if details.labels.isEmpty then "" else "[" ++ String.intercalate ", " details.labels ++ "] ")

/-- Renders an optional type tag; a JS falsy value (absent or empty string)
produces nothing. -/
def optTag (o : Option String) : String :=
  match o with
  | none => ""
  | some t => if t = "" then "" else "[" ++ t ++ "] "

/-- `formatPrefix` (lines 73-79). -/
def formatHead (hook : Dialogue → SearchDetails) (d : Dialogue) (showAnswerType : Bool) : String :=
  let details := getDetails hook d
  formatDetails d details ++ optTag details.questionType ++
    (if showAnswerType then optTag details.answerType else "")

/-! ### ResultRenderer (`formatAnswers`, `formatQuestionAnswers`) -/

/-- `formatAnswers` (lines 81-88): answer-first rendering; a dialogue with an
attached `_redirections` list contributes its own line joined with the lines
of its children rendered one indentation level deeper. -/
def formatAnswers (hook : Dialogue → SearchDetails) (cfg : TeachConfig) :
    Nat → List ADialogue → List String
  | _, [] => []
  | padding, ADialogue.mk d redir :: rest =>
    let out := repeatStr "=> " padding ++ formatHead hook d true ++ formatAnswer d.answer cfg
    let entry :=
      match redir with
      | none => out
      | some children =>
        String.intercalate "\n" (out :: formatAnswers hook cfg (padding + 1) children)
    entry :: formatAnswers hook cfg padding rest

/-- `formatQuestionAnswers` (lines 90-99): question+answer rendering with
redirected children rendered answer-first at depth 1. -/
def formatQuestionAnswers (hook : Dialogue → SearchDetails) (cfg : TeachConfig)
    (ads : List ADialogue) : List String :=
  ads.map fun a =>
    match a with
    | ADialogue.mk d redir =>
      let details := getDetails hook d
      let questionType := details.questionType.getD "问题"
      let answerType := details.answerType.getD "回答"
      let out := formatDetails d details ++ questionType ++ "：" ++ d.original ++ "，" ++
        answerType ++ "：" ++ formatAnswer d.answer cfg
      match redir with
      | none => out
      | some children => String.intercalate "\n" (out :: formatAnswers hook cfg 1 children)

/-! ### The dialogue store -/

/-- Modelled from the spec: the persistent dialogue store and its query
execution (`getDialogues` in `utils.ts`) are out of scope and consumed as an
opaque lookup. Per the spec's external-interface contract, question and
answer filters use exact text semantics when `keyword` is off and substring
semantics when it is on; the store is modelled as a finite list filtered
accordingly, preserving stored order. -/
def matchesTest (test : DialogueTest) (d : Dialogue) : Bool :=
  (match test.question with
    | none => true
    | some q => if test.keyword then substrIn q.data d.original.data else d.original == q) &&
  (match test.answer with
    | none => true
    | some a => if test.keyword then substrIn a.data d.answer.data else d.answer == a)

/-- Modelled from the spec: store lookup over a finite database `db`. -/
def getDialogues (db : List Dialogue) (test : DialogueTest) : List Dialogue :=
  db.filter (matchesTest test)

/-! ### RedirectionResolver (`getRedirections`, lines 118-138 of `search.ts`) -/

/-- The redirect-expression marker checked on line 126
(the 11-character literal the answer must start with). -/
def redirectMarker : String := "$\x7bdialogue "

/-- Line 126: a dialogue is recursed into exactly when its answer starts with
the redirect marker. -/
def isRedirect (answer : String) : Bool := hasPrefixList redirectMarker.data answer.data

/-- Modelled from the spec: `_stripQuestion` (`utils.ts`, not part of the
sources under verification).  The spec only says the embedded target
question text is extracted and trimmed, with no further transformation
specified, so stripping is modelled as the identity (wrapped in a
one-element array as in the source's destructuring). -/
def stripQuestion (s : String) : List String := [s]

/-- Line 127: the redirect target question text,
`_stripQuestion(answer.slice(11, -1).trimStart())[0]`: drop the marker,
drop the final character, trim leading whitespace and strip. -/
def redirectTarget (answer : String) : String :=
  (stripQuestion (String.mk (((answer.data.drop 11).dropLast).dropWhile Char.isWhitespace))).headD
    "undefined"

/-- The key under which the root result set is recorded on lines 119-121
(`{[test.question]: dialogues}`); a missing question is coerced to the JS
string `"undefined"` by the computed-key syntax. -/
def rootQuestionKey (test : DialogueTest) : String := test.question.getD "undefined"

/-- The inner recursive `getRedirections` function (lines 123-137), embedded
with explicit state: `qs` is the resolved-question map (an association list
in insertion order, as a JS object with non-numeric keys iterates), and the
result carries the final map, the list of question texts looked up in the
store (in lookup order), and the input dialogues annotated with their
`_redirections` trees.  Every recursive call consumes one unit of the
`fuel` argument, keeping the recursion structural; `none` means the fuel
ran out (termination is proved separately by exhibiting sufficient fuel). -/
def getRedirectionsAux (db : List Dialogue) (test : DialogueTest) :
    Nat → List (String × List Dialogue) → List Dialogue →
    Option (List (String × List Dialogue) × List String × List ADialogue)
  | 0, _, _ => none
  | _ + 1, qs, [] => some (qs, [], [])
  | fuel + 1, qs, d :: rest =>
    if isRedirect d.answer then
      let q := redirectTarget d.answer
      if (qs.map Prod.fst).contains q then
        -- line 128: `if (question in questions) continue` — no lookup, no
        -- recursion, and no `_redirections` attached to `d`
        match getRedirectionsAux db test fuel qs rest with
        | none => none
        | some (qs1, log, ads) => some (qs1, log, ADialogue.mk d none :: ads)
      else
        -- lines 129-135: fetch the target question with the same answer
        -- constraint, keyword disabled; record it; attach `_redirections`;
        -- recurse into the freshly fetched list, then continue with `rest`
        let fetched := getDialogues db { test with keyword := false, question := some q }
        match getRedirectionsAux db test fuel (qs ++ [(q, fetched)]) fetched with
        | none => none
        | some (qs2, log1, children) =>
          match getRedirectionsAux db test fuel qs2 rest with
          | none => none
          | some (qs3, log2, ads) =>
            some (qs3, q :: (log1 ++ log2), ADialogue.mk d (some children) :: ads)
    else
      match getRedirectionsAux db test fuel qs rest with
      | none => none
      | some (qs1, log, ads) => some (qs1, log, ADialogue.mk d none :: ads)

/-- All question texts that any dialogue of the database can redirect to;
its length bounds the number of fresh questions resolution can encounter. -/
def allTargets (db : List Dialogue) : List String :=
  (db.filter (fun d => isRedirect d.answer)).map (fun d => redirectTarget d.answer)

/-- The redirect targets of the database not yet present as keys of the
resolved-question map; its length strictly decreases at every fresh store
lookup. -/
def freshTargets (db : List Dialogue) (qs : List (String × List Dialogue)) : List String :=
  (allTargets db).filter (fun t => !((qs.map Prod.fst).contains t))

/-- Fuel that provably suffices for a full resolution run starting from
root result set `ds`: one unit per dialogue of the current list plus, for
every redirect target that can still be fresh, one lookup step and one unit
per fetched dialogue. -/
def sufficientFuel (db : List Dialogue) (ds : List Dialogue) : Nat :=
  ds.length + 1 + (allTargets db).length * (db.length + 1)

/-- Redirection resolution as performed by the `recursive` branch of `search`
(lines 118-138): seed the map with the root question and run the recursion
with provably sufficient fuel.  The fallback is dead code (the fuel never
runs out, as proved below). -/
def resolveRedirections (db : List Dialogue) (test : DialogueTest) (dialogues : List Dialogue) :
    List ADialogue :=
  match getRedirectionsAux db test (sufficientFuel db dialogues)
      [(rootQuestionKey test, dialogues)] dialogues with
  | some r => r.2.2
  | none => dialogues.map (fun d => ADialogue.mk d none)

/-- The full redirection-resolution run on the root result set of a search:
root lookup, seeded map, recursion. -/
def getRedirectionsRun (db : List Dialogue) (test : DialogueTest) :
    Option (List (String × List Dialogue) × List String × List ADialogue) :=
  getRedirectionsAux db test (sufficientFuel db (getDialogues db test))
    [(rootQuestionKey test, getDialogues db test)] (getDialogues db test)

/-! ### MergeGrouper (lines 184-195 of `search.ts`) -/

/-- Line 186: the grouping key, `question ? dialogue.original : dialogue.answer`. -/
def mergeKey (questionPresent : Bool) (d : Dialogue) : String :=
  if questionPresent then d.original else d.answer

/-- Appends an id under a key of the id map, creating the entry at the end on
first encounter (JS object insertion order for non-numeric keys). -/
def insertId (m : List (String × List Nat)) (key : String) (i : Nat) :
    List (String × List Nat) :=
  match m with
  | [] => [(key, [i])]
  | (k, ids) :: rest =>
    if k = key then (k, ids ++ [i]) :: rest else (k, ids) :: insertId rest key i

/-- Lines 184-189: build the id map, keyed per `mergeKey`, ids in
first-encountered order. -/
def buildIdMap (questionPresent : Bool) (ds : List Dialogue) : List (String × List Nat) :=
  ds.foldl (fun m d => insertId m (mergeKey questionPresent d) d.id) []

/-- Lines 190-195: render each group as an id list when its size is at most
the merge threshold, and as a count summary otherwise. -/
def mergeLines (questionPresent : Bool) (mergeThreshold : Nat) (ds : List Dialogue) :
    List String :=
  (buildIdMap questionPresent ds).map fun g =>
    if g.2.length ≤ mergeThreshold then
      g.1 ++ " (#" ++ String.intercalate ", #" (g.2.map toString) ++ ")"
    else
      g.1 ++ " (共 " ++ toString g.2.length ++ " 个" ++
        (if questionPresent then "回答" else "问题") ++ ")"

/-! ### Paginator (`sendResult`, lines 140-152 of `search.ts`) -/

/-- The fixed instructional trailer line appended to paginated output. -/
def trailerLine : String := "可以使用 --page 或在 ## 之后加上页码以调整输出的条目页数。"

/-- Line 145: `Math.ceil(output.length / itemsPerPage)`. -/
def pageCount (itemsPerPage len : Nat) : Nat := (len + itemsPerPage - 1) / itemsPerPage

/-- Line 146: `output.slice((page - 1) * itemsPerPage, page * itemsPerPage)`
(the caller validates that `page` is positive). -/
def pageBody (itemsPerPage page : Nat) (output : List String) : List String :=
  (output.drop ((page - 1) * itemsPerPage)).take itemsPerPage

/-- `sendResult` (lines 140-152), as the list of lines it joins and sends: an
unpaginated titled block when the lines fit on one page, else the sliced
window under a page-numbered header with the instructional trailer.  A JS
falsy `suffix` (absent, modelled as the empty string) is not appended. -/
def sendResultLines (itemsPerPage page : Nat) (title : String) (output : List String)
    (suffix : String) : List String :=
  if output.length ≤ itemsPerPage then
    ((title ++ "：") :: output) ++ (if suffix == "" then [] else [suffix])
  else
    (((title ++ "（第 " ++ toString page ++ "/" ++
        toString (pageCount itemsPerPage output.length) ++ " 页）：") ::
      pageBody itemsPerPage page output) ++
      (if suffix == "" then [] else [suffix])) ++ [trailerLine]

/-! ### The `search` dispatcher (lines 101-207 of `search.ts`) -/

/-- The options consumed by `search` from the parsed command line:
`question`/`original`/`answer` are optional strings (`original` is the
question as typed, `question` the stripped form), `page` defaults to 1,
`pipe` carries the piped operation text, and the flags are booleans. -/
structure SearchOptions where
  question : Option String := none
  original : Option String := none
  answer : Option String := none
  keyword : Bool := false
  page : Option Nat := none
  pipe : Option String := none
  recursive : Bool := false
  autoMerge : Bool := false
deriving Repr, DecidableEq, Inhabited

/-- JS truthiness of an optional string option: absent and the empty string
are both falsy. -/
def strTruthy : Option String → Bool
  | none => false
  | some s => !(s == "")

/-- The `DialogueTest` built on line 106 from the search options. -/
def testOf (opts : SearchOptions) : DialogueTest :=
  { question := opts.question, answer := opts.answer, keyword := opts.keyword }

/-- What a `search` invocation hands to its collaborators: a plain message
sent directly (`meta.$send` of a no-results text), a titled listing handed
to `sendResult` (title, body lines, optional probability suffix — the empty
string standing for an absent suffix), or, for the pipe form, the matched
dialogue ids forwarded to command execution. -/
inductive SearchOutput where
  | plain (msg : String)
  | result (title : String) (lines : List String) (suffix : String)
  | piped (targets : List Nat)
deriving Repr, DecidableEq, Inhabited

/-- JS string interpolation of an optional value (`undefined` prints as the
string `undefined`); every interpolation site in `search` is guarded by a
truthiness test, so the default is unreachable in practice. -/
def interp (o : Option String) : String := o.getD "undefined"

/-- The `search` function (lines 101-207), with its external collaborators
made explicit: `db` backs the store lookup, `hook` the
`dialogue/detail-short` event, and `probText` the formatted trigger
probability computed by `getTotalWeight` (floating point, external).  The
`dialogue/search` bail hook and the session-state bookkeeping have no
effect on the produced output and are not modelled.  Pagination
(`sendResult`) renders a `result` output via `sendResultLines`. -/
def search (db : List Dialogue) (hook : Dialogue → SearchDetails) (cfg : TeachConfig)
    (probText : String) (opts : SearchOptions) : SearchOutput :=
  let test := testOf opts
  let dialogues := getDialogues db test
  if strTruthy opts.pipe then
    if dialogues.isEmpty then .plain "没有搜索到任何问答。"
    else .piped (dialogues.map (fun d => d.id))
  else
  -- lines 118-138: the recursive option annotates the result set in place
  let ads := if opts.recursive then resolveRedirections db test dialogues
    else dialogues.map (fun d => ADialogue.mk d none)
  if !strTruthy opts.question && !strTruthy opts.answer then
    if dialogues.isEmpty then .plain "没有搜索到任何回答，尝试切换到其他环境。"
    else .result "全部问答如下" (formatQuestionAnswers hook cfg ads) ""
  else if !opts.keyword then
    if !strTruthy opts.question then
      if dialogues.isEmpty then
        .plain ("没有搜索到回答“" ++ interp opts.answer ++ "”，请尝试使用关键词匹配。")
      else
        .result ("回答“" ++ interp opts.answer ++ "”的问题如下")
          (dialogues.map (fun d => formatHead hook d false ++ d.original)) ""
    else if !strTruthy opts.answer then
      if dialogues.isEmpty then
        .plain ("没有搜索到问题“" ++ interp opts.original ++ "”，请尝试使用关键词匹配。")
      else
        .result ("问题“" ++ interp opts.original ++ "”的回答如下")
          (formatAnswers hook cfg 0 ads)
          (if dialogues.length > 1 then probText else "")
    else
      if dialogues.isEmpty then
        .plain ("没有搜索到问答“" ++ interp opts.original ++ "”“" ++ interp opts.answer ++
          "”，请尝试使用关键词匹配。")
      else
        .result ("“" ++ interp opts.original ++ "”“" ++ interp opts.answer ++ "”匹配的回答如下")
          [String.intercalate ", " (dialogues.map (fun d => toString d.id))] ""
  else
    let output :=
      if !opts.autoMerge || (strTruthy opts.question && strTruthy opts.answer) then
        formatQuestionAnswers hook cfg ads
      else
        mergeLines (strTruthy opts.question) (cfg.mergeThreshold.getD 5) dialogues
    if !strTruthy opts.question then
      if dialogues.isEmpty then
        .plain ("没有搜索到含有关键词“" ++ interp opts.answer ++ "”的回答。")
      else .result ("回答关键词“" ++ interp opts.answer ++ "”的搜索结果如下") output ""
    else if !strTruthy opts.answer then
      if dialogues.isEmpty then
        .plain ("没有搜索到含有关键词“" ++ interp opts.original ++ "”的问题。")
      else .result ("问题关键词“" ++ interp opts.original ++ "”的搜索结果如下") output ""
    else
      if dialogues.isEmpty then
        .plain ("没有搜索到含有关键词“" ++ interp opts.original ++ "”“" ++ interp opts.answer ++
          "”的问答。")
      else
        .result ("问答关键词“" ++ interp opts.original ++ "”“" ++ interp opts.answer ++
          "”的搜索结果如下") output ""

/-- The shape-specific no-results message of each `search` branch, for
stating the error-handling property. -/
def noResultsMessage (opts : SearchOptions) : String :=
  if strTruthy opts.pipe then "没有搜索到任何问答。"
  else if !strTruthy opts.question && !strTruthy opts.answer then
    "没有搜索到任何回答，尝试切换到其他环境。"
  else if !opts.keyword then
    if !strTruthy opts.question then
      "没有搜索到回答“" ++ interp opts.answer ++ "”，请尝试使用关键词匹配。"
    else if !strTruthy opts.answer then
      "没有搜索到问题“" ++ interp opts.original ++ "”，请尝试使用关键词匹配。"
    else
      "没有搜索到问答“" ++ interp opts.original ++ "”“" ++ interp opts.answer ++
        "”，请尝试使用关键词匹配。"
  else
    if !strTruthy opts.question then
      "没有搜索到含有关键词“" ++ interp opts.answer ++ "”的回答。"
    else if !strTruthy opts.answer then
      "没有搜索到含有关键词“" ++ interp opts.original ++ "”的问题。"
    else
      "没有搜索到含有关键词“" ++ interp opts.original ++ "”“" ++ interp opts.answer ++ "”的问答。"

/-! ### Definitions taken from the spec's words, for comparison -/

/-- Follows the spec's words, not the source: a dialogue "may redirect — its
`answer` matches the pattern `$\x7bdialogue <question-text>\x7d` (after
trimming)", i.e. the trimmed answer starts with the redirect marker and
ends with the closing brace. -/
def matchesRedirectPattern (answer : String) : Bool :=
  let t := String.mk (trimChars answer.data)
  hasPrefixList redirectMarker.data t.data && endsWithStr t "\x7d"

/-- Follows the spec's words, not the source: the claimed merge grouping key
is "the dimension not being searched" — the answer text when searching by
question keyword, the question text when searching by answer keyword. -/
def mergeKeySpec (questionPresent : Bool) (d : Dialogue) : String :=
  if questionPresent then d.answer else d.original

/-- Follows the spec's words, not the source: merge grouping keyed by
`mergeKeySpec`, rendering as in the source. -/
def buildIdMapSpec (questionPresent : Bool) (ds : List Dialogue) : List (String × List Nat) :=
  ds.foldl (fun m d => insertId m (mergeKeySpec questionPresent d) d.id) []

/-- Follows the spec's words, not the source: the merge lines the claim
describes, grouped by the dimension not being searched. -/
def mergeLinesSpec (questionPresent : Bool) (mergeThreshold : Nat) (ds : List Dialogue) :
    List String :=
  (buildIdMapSpec questionPresent ds).map fun g =>
    if g.2.length ≤ mergeThreshold then
      g.1 ++ " (#" ++ String.intercalate ", #" (g.2.map toString) ++ ")"
    else
      g.1 ++ " (共 " ++ toString g.2.length ++ " 个" ++
        (if questionPresent then "回答" else "问题") ++ ")"

/-! ## Helper lemmas -/

theorem substrIn_cons (p : List Char) (c : Char) (cs : List Char) :
    substrIn p (c :: cs) = (hasPrefixList p (c :: cs) || substrIn p cs) := rfl

theorem firstSegment_no_sep (l : List Char)
    (h1 : substrIn ['\n'] l = false) (h2 : substrIn ['$', 'n'] l = false) :
    firstSegment l = (l, false) := by
  induction l using firstSegment.induct with
  | case1 => rfl
  | case2 tail => simp [substrIn, hasPrefixList] at h1
  | case3 tail => simp [substrIn, hasPrefixList] at h1
  | case4 tail => simp [substrIn, hasPrefixList] at h2
  | case5 c cs hne1 hne2 hne3 ih =>
    rw [substrIn_cons] at h1 h2
    simp only [Bool.or_eq_false_iff] at h1 h2
    have hrec := ih h1.2 h2.2
    rw [firstSegment.eq_5 c cs hne1 hne2 hne3, hrec]

theorem replaceImagesFuel_no_marker (fuel : Nat) : ∀ (l : List Char),
    substrIn "[CQ:image,".data l = false → replaceImagesFuel fuel l = l := by
  induction fuel with
  | zero => intro l h; rfl
  | succ n ih =>
    intro l h
    cases l with
    | nil => rfl
    | cons c cs =>
      rw [substrIn_cons] at h
      simp only [Bool.or_eq_false_iff] at h
      simp [replaceImagesFuel, h.1, ih cs h.2]

theorem replaceImages_no_marker (l : List Char)
    (h : substrIn "[CQ:image,".data l = false) : replaceImages l = l :=
  replaceImagesFuel_no_marker l.length l h

theorem endsWithStr_append_self (s t : String) : endsWithStr (s ++ t) t = true := by
  simp only [endsWithStr, List.isSuffixOf_iff_suffix, String.data_append]
  exact List.suffix_append s.data t.data

theorem endsWithStr_one_more (s : String) (h : endsWithStr s "…" = true) :
    endsWithStr (s ++ "…") "……" = true := by
  simp only [endsWithStr, List.isSuffixOf_iff_suffix, String.data_append] at h ⊢
  obtain ⟨u, hu⟩ := h
  exact ⟨u, by rw [← hu]; simp⟩

theorem appendEllipsis_ends_with_marker (s : String) :
    endsWithStr (appendEllipsis s) "……" = true := by
  unfold appendEllipsis
  split
  · assumption
  · split
    · exact endsWithStr_one_more s (by assumption)
    · exact endsWithStr_append_self s "……"

theorem appendEllipsis_length_le (s : String) :
    (appendEllipsis s).length ≤ s.length + 2 := by
  unfold appendEllipsis
  split
  · omega
  · split <;> simp [String.length_append] <;> decide

theorem appendEllipsis_of_marker (s : String) (h : endsWithStr s "……" = true) :
    appendEllipsis s = s := by
  simp [appendEllipsis, h]

theorem formatAnswerCore_length_le (s : String) (m : Nat) :
    ((formatAnswerCore s m).1).length ≤ m := by
  unfold formatAnswerCore
  dsimp only
  split <;> split <;> simp_all only [String.length, List.length_take] <;> omega

/-! ## Claim theorems -/

/-- C7: `formatAnswer` is the identity on plain short answers — any string
with no real newline, no literal `$n` sequence, and no image marker, whose
length does not exceed the configured `maxAnswerLength` (100 when not
configured), is returned unchanged. -/
theorem formatAnswer_plain_identity (s : String) (cfg : TeachConfig)
    (h1 : substrIn ['\n'] s.data = false)
    (h2 : substrIn ['$', 'n'] s.data = false)
    (h3 : substrIn "[CQ:image,".data s.data = false)
    (h4 : s.length ≤ cfg.maxAnswerLength.getD 100) :
    formatAnswer s cfg = s := by
  unfold formatAnswer formatAnswerCore
  rw [firstSegment_no_sep s.data h1 h2]
  simp only [if_false, Bool.false_eq_true]
  rw [replaceImages_no_marker s.data h3]
  have hs : String.mk s.data = s := rfl
  rw [hs]
  have hno : ¬ s.length > cfg.maxAnswerLength.getD 100 := by omega
  simp [hno]

/-- Witness for C7 at a concrete input. -/
theorem formatAnswer_plain_identity_witness :
    substrIn ['\n'] "hello".data = false ∧
    substrIn ['$', 'n'] "hello".data = false ∧
    substrIn "[CQ:image,".data "hello".data = false ∧
    "hello".length ≤ 100 ∧
    formatAnswer "hello" {} = "hello" :=
  ⟨by decide, by decide, by decide, by decide,
    formatAnswer_plain_identity "hello" {} (by decide) (by decide) (by decide) (by decide)⟩

/-- C8: the ellipsis-append rule never double-appends — a string already
ending with the marker `……` is left unchanged, a string ending with a single
`…` gains exactly one more `…`, anything else gains `……`; consequently every
appended result ends with the marker, the rule is idempotent, and every
`formatAnswer` run in which truncation occurred produces an output ending
with the marker. -/
theorem ellipsis_append_rule (s source : String) (cfg : TeachConfig) :
    endsWithStr (appendEllipsis s) "……" = true ∧
    (endsWithStr s "……" = true → appendEllipsis s = s) ∧
    (endsWithStr s "……" = false → endsWithStr s "…" = true → appendEllipsis s = s ++ "…") ∧
    (endsWithStr s "……" = false → endsWithStr s "…" = false → appendEllipsis s = s ++ "……") ∧
    appendEllipsis (appendEllipsis s) = appendEllipsis s ∧
    ((formatAnswerCore source (cfg.maxAnswerLength.getD 100)).2 = true →
      endsWithStr (formatAnswer source cfg) "……" = true) := by
  refine ⟨appendEllipsis_ends_with_marker s, ?_, ?_, ?_, ?_, ?_⟩
  · intro h; exact appendEllipsis_of_marker s h
  · intro h h'; simp [appendEllipsis, h, h']
  · intro h h'; simp [appendEllipsis, h, h']
  · exact appendEllipsis_of_marker (appendEllipsis s) (appendEllipsis_ends_with_marker s)
  · intro h
    unfold formatAnswer
    dsimp only
    rw [h]
    simp only [if_true]
    exact appendEllipsis_ends_with_marker _

/-- Witness for C8 at concrete inputs. -/
theorem ellipsis_append_rule_witness :
    endsWithStr "ab……" "……" = true ∧ appendEllipsis "ab……" = "ab……" ∧
    endsWithStr "ab…" "……" = false ∧ endsWithStr "ab…" "…" = true ∧
    appendEllipsis "ab…" = "ab…" ++ "…" ∧
    (formatAnswerCore "line1\nline2" 100).2 = true ∧
    endsWithStr (formatAnswer "line1\nline2" {}) "……" = true :=
  ⟨by decide, (ellipsis_append_rule "ab……" "x" {}).2.1 (by decide),
    by decide, by decide,
    (ellipsis_append_rule "ab…" "x" {}).2.2.1 (by decide) (by decide),
    by decide,
    (ellipsis_append_rule "x" "line1\nline2" {}).2.2.2.2.2 (by decide)⟩

/-- C10: for every source string and configuration, the output of
`formatAnswer` is at most two characters longer than the configured
`maxAnswerLength` — the cut produces at most `maxAnswerLength` characters
and the ellipsis append adds at most two. -/
theorem formatAnswer_length_bound (s : String) (cfg : TeachConfig) :
    (formatAnswer s cfg).length ≤ cfg.maxAnswerLength.getD 100 + 2 := by
  unfold formatAnswer
  dsimp only
  have hcore := formatAnswerCore_length_le s (cfg.maxAnswerLength.getD 100)
  split
  · have := appendEllipsis_length_le (formatAnswerCore s (cfg.maxAnswerLength.getD 100)).1
    omega
  · omega

theorem contains_eq_true_iff {l : List String} {a : String} :
    l.contains a = true ↔ a ∈ l := List.elem_iff

theorem nodup_append_singleton {l : List String} {a : String}
    (h : l.Nodup) (ha : a ∉ l) : (l ++ [a]).Nodup := by
  rw [List.nodup_append]
  refine ⟨h, List.nodup_singleton a, fun x hx hx1 => ?_⟩
  rw [List.mem_singleton] at hx1
  subst hx1
  exact ha hx

theorem length_filter_lt_of_mem {α : Type} (p : α → Bool) (a : α) :
    ∀ (l : List α), a ∈ l → p a = false → (l.filter p).length < l.length := by
  intro l
  induction l with
  | nil => intro h; simp at h
  | cons b t ih =>
    intro hmem hpa
    rcases List.mem_cons.mp hmem with h | h
    · subst h
      rw [List.filter_cons_of_neg (by simp [hpa])]
      have := List.length_filter_le p t
      simp only [List.length_cons]
      omega
    · cases hb : p b
      · rw [List.filter_cons_of_neg (by simp [hb])]
        have := ih h hpa
        simp only [List.length_cons]
        omega
      · rw [List.filter_cons_of_pos (by simp [hb])]
        have := ih h hpa
        simp only [List.length_cons]
        omega

theorem freshTargets_append_le (db : List Dialogue) (qs ext : List (String × List Dialogue)) :
    (freshTargets db (qs ++ ext)).length ≤ (freshTargets db qs).length := by
  apply List.Sublist.length_le
  apply List.monotone_filter_right
  intro t ht
  simp only [List.map_append, Bool.not_eq_true'] at ht ⊢
  rw [List.contains_eq_any_beq] at ht ⊢
  simp only [List.any_append, Bool.or_eq_false_iff] at ht
  exact ht.1

theorem freshTargets_insert_eq (db : List Dialogue) (qs : List (String × List Dialogue))
    (q : String) (fetched : List Dialogue) :
    freshTargets db (qs ++ [(q, fetched)]) =
      (freshTargets db qs).filter (fun t => !(t == q)) := by
  unfold freshTargets
  rw [List.filter_filter]
  apply List.filter_congr
  intro t _
  simp only [List.map_append, List.map_cons, List.map_nil]
  rw [List.contains_eq_any_beq, List.contains_eq_any_beq]
  simp [List.any_append, Bool.and_comm]

theorem freshTargets_insert_lt (db : List Dialogue) (qs : List (String × List Dialogue))
    (q : String) (fetched : List Dialogue)
    (hq : q ∈ allTargets db) (hfresh : (qs.map Prod.fst).contains q = false) :
    (freshTargets db (qs ++ [(q, fetched)])).length < (freshTargets db qs).length := by
  rw [freshTargets_insert_eq]
  apply length_filter_lt_of_mem _ q
  · unfold freshTargets
    rw [List.mem_filter]
    refine ⟨hq, ?_⟩
    show (!((qs.map Prod.fst).contains q)) = true
    rw [hfresh]
    rfl
  · simp

theorem getRedirectionsAux_extends (db : List Dialogue) (test : DialogueTest) (fuel : Nat) :
    ∀ (qs : List (String × List Dialogue)) (ds : List Dialogue)
      (r : List (String × List Dialogue) × List String × List ADialogue),
      getRedirectionsAux db test fuel qs ds = some r →
      (∃ ext, r.1 = qs ++ ext ∧ ext.map Prod.fst = r.2.1) ∧
      r.2.2.length = ds.length ∧
      ((qs.map Prod.fst).Nodup → (r.1.map Prod.fst).Nodup) := by
  induction fuel with
  | zero => intro qs ds r h; simp [getRedirectionsAux] at h
  | succ n ih =>
    intro qs ds r h
    cases ds with
    | nil =>
      simp only [getRedirectionsAux, Option.some.injEq] at h
      subst h
      exact ⟨⟨[], by simp, rfl⟩, rfl, fun hn => hn⟩
    | cons d rest =>
      simp only [getRedirectionsAux] at h
      split at h
      · next hred =>
        split at h
        · next hhit =>
          cases heq : getRedirectionsAux db test n qs rest with
          | none => rw [heq] at h; exact absurd h (by simp)
          | some r1 =>
            obtain ⟨qs1, log, ads⟩ := r1
            rw [heq] at h
            simp only [Option.some.injEq] at h
            subst h
            obtain ⟨⟨ext, hext, hlog⟩, hlen, hnod⟩ := ih qs rest _ heq
            exact ⟨⟨ext, hext, hlog⟩, by simp [hlen], hnod⟩
        · next hhit =>
          set q := redirectTarget d.answer with hqdef
          set fetched := getDialogues db { test with keyword := false, question := some q }
            with hfdef
          cases heq1 : getRedirectionsAux db test n (qs ++ [(q, fetched)]) fetched with
          | none => rw [heq1] at h; exact absurd h (by simp)
          | some r1 =>
            obtain ⟨qs2, log1, children⟩ := r1
            rw [heq1] at h
            dsimp only at h
            cases heq2 : getRedirectionsAux db test n qs2 rest with
            | none => rw [heq2] at h; exact absurd h (by simp)
            | some r2 =>
              obtain ⟨qs3, log2, ads⟩ := r2
              rw [heq2] at h
              simp only [Option.some.injEq] at h
              subst h
              obtain ⟨⟨ext1, hext1, hlog1⟩, hlen1, hnod1⟩ := ih _ _ _ heq1
              obtain ⟨⟨ext2, hext2, hlog2⟩, hlen2, hnod2⟩ := ih _ _ _ heq2
              dsimp only at hext1 hlog1 hlen1 hnod1 hext2 hlog2 hlen2 hnod2
              refine ⟨⟨(q, fetched) :: (ext1 ++ ext2), ?_, ?_⟩, by simp [hlen2], ?_⟩
              · rw [hext2, hext1]
                simp
              · simp [← hlog1, ← hlog2]
              · intro hqs
                apply hnod2
                apply hnod1
                rw [List.map_append]
                have hsing : (List.map Prod.fst [(q, fetched)]) = [q] := rfl
                rw [hsing]
                refine nodup_append_singleton hqs (fun hm => ?_)
                exact hhit (contains_eq_true_iff.mpr hm)
      · next hred =>
        cases heq : getRedirectionsAux db test n qs rest with
        | none => rw [heq] at h; exact absurd h (by simp)
        | some r1 =>
          obtain ⟨qs1, log, ads⟩ := r1
          rw [heq] at h
          simp only [Option.some.injEq] at h
          subst h
          obtain ⟨⟨ext, hext, hlog⟩, hlen, hnod⟩ := ih qs rest _ heq
          exact ⟨⟨ext, hext, hlog⟩, by simp [hlen], hnod⟩

theorem getRedirectionsAux_isSome (db : List Dialogue) (test : DialogueTest) : ∀ (fuel : Nat)
    (qs : List (String × List Dialogue)) (ds : List Dialogue),
    (∀ d ∈ ds, d ∈ db) →
    ds.length + 1 + (freshTargets db qs).length * (db.length + 1) ≤ fuel →
    (getRedirectionsAux db test fuel qs ds).isSome = true := by
  intro fuel
  induction fuel with
  | zero => intro qs ds _ hf; omega
  | succ n ih =>
    intro qs ds hsub hf
    cases ds with
    | nil => simp [getRedirectionsAux]
    | cons d rest =>
      simp only [getRedirectionsAux]
      have hrest_sub : ∀ x ∈ rest, x ∈ db := fun x hx => hsub x (List.mem_cons_of_mem _ hx)
      split
      · next hred =>
        split
        · next hhit =>
          have hr := ih qs rest hrest_sub (by simp at hf ⊢; omega)
          cases heq : getRedirectionsAux db test n qs rest with
          | none => rw [heq] at hr; simp at hr
          | some r1 => obtain ⟨qs1, log, ads⟩ := r1; simp
        · next hhit =>
          set q := redirectTarget d.answer with hqdef
          set fetched := getDialogues db { test with keyword := false, question := some q }
            with hfdef
          have hfresh : (qs.map Prod.fst).contains q = false := by
            cases hc : (qs.map Prod.fst).contains q
            · rfl
            · exact absurd hc hhit
          have hqtgt : q ∈ allTargets db := by
            unfold allTargets
            have hd_in : d ∈ db.filter (fun x => isRedirect x.answer) := by
              rw [List.mem_filter]
              exact ⟨hsub d (List.mem_cons_self d rest), hred⟩
            exact List.mem_map_of_mem (fun x : Dialogue => redirectTarget x.answer) hd_in
          have hflen : fetched.length ≤ db.length := by
            rw [hfdef]
            exact List.length_filter_le _ _
          have hfsub : ∀ x ∈ fetched, x ∈ db := by
            intro x hx
            rw [hfdef] at hx
            exact List.mem_of_mem_filter hx
          have hM1 : (freshTargets db (qs ++ [(q, fetched)])).length <
              (freshTargets db qs).length :=
            freshTargets_insert_lt db qs q fetched hqtgt hfresh
          have hMpos : 1 ≤ (freshTargets db qs).length := by omega
          -- arithmetic: expose the products as atoms
          have hsplit : (freshTargets db qs).length * (db.length + 1) =
              ((freshTargets db qs).length - 1) * (db.length + 1) + (db.length + 1) := by
            have h0 : (freshTargets db qs).length - 1 + 1 = (freshTargets db qs).length :=
              Nat.sub_add_cancel hMpos
            calc (freshTargets db qs).length * (db.length + 1)
                = ((freshTargets db qs).length - 1 + 1) * (db.length + 1) := by rw [h0]
              _ = ((freshTargets db qs).length - 1) * (db.length + 1) + (db.length + 1) := by
                  rw [Nat.succ_mul]
          have hmono1 : (freshTargets db (qs ++ [(q, fetched)])).length * (db.length + 1) ≤
              ((freshTargets db qs).length - 1) * (db.length + 1) :=
            Nat.mul_le_mul_right _ (by omega)
          have hinner := ih (qs ++ [(q, fetched)]) fetched hfsub (by
            simp only [List.length_cons] at hf
            generalize hA : (freshTargets db qs).length * (db.length + 1) = A at hsplit hf
            generalize hB : ((freshTargets db qs).length - 1) * (db.length + 1) = B
              at hsplit hmono1
            generalize hC : (freshTargets db (qs ++ [(q, fetched)])).length * (db.length + 1) = C
              at hmono1
            omega)
          cases heq1 : getRedirectionsAux db test n (qs ++ [(q, fetched)]) fetched with
          | none => rw [heq1] at hinner; simp at hinner
          | some r1 =>
            obtain ⟨qs2, log1, children⟩ := r1
            obtain ⟨⟨ext1, hext1, _⟩, _, _⟩ := getRedirectionsAux_extends db test n _ _ _ heq1
            dsimp only at hext1
            have hM2 : (freshTargets db qs2).length ≤
                (freshTargets db (qs ++ [(q, fetched)])).length := by
              rw [hext1]
              exact freshTargets_append_le db _ _
            have hrest := ih qs2 rest hrest_sub (by
              simp only [List.length_cons] at hf
              have hmono2 : (freshTargets db qs2).length * (db.length + 1) ≤
                  ((freshTargets db qs).length - 1) * (db.length + 1) :=
                Nat.mul_le_mul_right _ (by omega)
              generalize hA : (freshTargets db qs).length * (db.length + 1) = A at hsplit hf
              generalize hB : ((freshTargets db qs).length - 1) * (db.length + 1) = B
                at hsplit hmono2
              generalize hD : (freshTargets db qs2).length * (db.length + 1) = D at hmono2
              omega)
            cases heq2 : getRedirectionsAux db test n qs2 rest with
            | none => rw [heq2] at hrest; simp at hrest
            | some r2 =>
              obtain ⟨qs3, log2, ads⟩ := r2
              simp [heq2]
      · next hred =>
        have hr := ih qs rest hrest_sub (by simp at hf ⊢; omega)
        cases heq : getRedirectionsAux db test n qs rest with
        | none => rw [heq] at hr; simp at hr
        | some r1 => obtain ⟨qs1, log, ads⟩ := r1; simp

theorem insertId_lookup (m : List (String × List Nat)) (key j : String) (i : Nat) :
    (insertId m key i).lookup j =
      if j = key then some (((m.lookup key).getD []) ++ [i]) else m.lookup j := by
  induction m with
  | nil =>
    by_cases h : j = key
    · subst h; simp [insertId, List.lookup]
    · have hb : (j == key) = false := beq_eq_false_iff_ne.mpr h
      simp [insertId, List.lookup, hb, h]
  | cons p rest ih =>
    obtain ⟨pk, pids⟩ := p
    simp only [insertId]
    by_cases hpk : pk = key
    · subst hpk
      simp only [if_pos rfl]
      by_cases h : j = pk
      · subst h; simp [List.lookup]
      · have hb : (j == pk) = false := beq_eq_false_iff_ne.mpr h
        simp [List.lookup, hb, h]
    · rw [if_neg hpk]
      by_cases h : j = pk
      · subst h
        have hne : ¬ j = key := hpk
        simp [List.lookup, if_neg hne]
      · have hb : (j == pk) = false := beq_eq_false_iff_ne.mpr h
        have hbk : (key == pk) = false :=
          beq_eq_false_iff_ne.mpr (fun hh => hpk hh.symm)
        simp [List.lookup, hb, hbk, ih]

theorem buildIdMap_go (qp : Bool) (k : String) : ∀ (ds : List Dialogue)
    (m : List (String × List Nat)),
    ((ds.foldl (fun m d => insertId m (mergeKey qp d) d.id) m).lookup k) =
      match m.lookup k with
      | some ids => some (ids ++ ((ds.filter (fun d => mergeKey qp d = k)).map (fun d => d.id)))
      | none =>
        if ((ds.filter (fun d => mergeKey qp d = k)).map (fun d => d.id)) = [] then none
        else some ((ds.filter (fun d => mergeKey qp d = k)).map (fun d => d.id)) := by
  intro ds
  induction ds with
  | nil =>
    intro m
    cases h : m.lookup k <;> simp [h]
  | cons d rest ih =>
    intro m
    simp only [List.foldl_cons]
    rw [ih]
    rw [insertId_lookup]
    by_cases h : mergeKey qp d = k
    · rw [if_pos h.symm, h]
      cases hm : m.lookup k <;> simp [hm, h]
    · rw [if_neg (fun hh => h hh.symm)]
      cases hm : m.lookup k <;> simp [hm, h]

theorem buildIdMap_lookup (qp : Bool) (ds : List Dialogue) (k : String) :
    (buildIdMap qp ds).lookup k =
      if ((ds.filter (fun d => mergeKey qp d = k)).map (fun d => d.id)) = [] then none
      else some ((ds.filter (fun d => mergeKey qp d = k)).map (fun d => d.id)) := by
  unfold buildIdMap
  rw [buildIdMap_go]
  rfl

theorem insertId_entry_ne_nil (m : List (String × List Nat)) (key : String) (i : Nat)
    (hm : ∀ e ∈ m, e.2 ≠ []) : ∀ e ∈ insertId m key i, e.2 ≠ [] := by
  induction m with
  | nil => simp [insertId]
  | cons p rest ih =>
    obtain ⟨pk, pids⟩ := p
    intro e he
    simp only [insertId] at he
    split at he
    · rcases List.mem_cons.mp he with h | h
      · subst h; simp
      · exact hm _ (List.mem_cons_of_mem _ h)
    · rcases List.mem_cons.mp he with h | h
      · subst h; exact hm _ (List.mem_cons_self _ _)
      · exact ih (fun e' he' => hm _ (List.mem_cons_of_mem _ he')) e h

theorem buildIdMap_entry_ne_nil (qp : Bool) (ds : List Dialogue) :
    ∀ e ∈ buildIdMap qp ds, e.2 ≠ [] := by
  unfold buildIdMap
  suffices h : ∀ (ds : List Dialogue) (m : List (String × List Nat)),
      (∀ e ∈ m, e.2 ≠ []) →
      ∀ e ∈ ds.foldl (fun m d => insertId m (mergeKey qp d) d.id) m, e.2 ≠ [] by
    exact h ds [] (by simp)
  intro ds
  induction ds with
  | nil => intro m hm; simpa using hm
  | cons d rest ih =>
    intro m hm
    simp only [List.foldl_cons]
    exact ih _ (insertId_entry_ne_nil m _ d.id hm)

/-- C1: redirection resolution terminates — with the sufficient fuel used by
the run, the recursion completes — and issues at most one store lookup per
distinct question text per search invocation: the resolved-question map is
seeded with the root question, its keys are exactly the root question
followed by the logged lookups, and they contain no duplicates, so each
distinct question text is fetched and recursed into at most once even when
the stored redirects are cyclic. -/
theorem redirection_terminates_unique_lookups (db : List Dialogue) (test : DialogueTest) :
    ∃ qs log ads, getRedirectionsRun db test = some (qs, log, ads) ∧
      qs.head? = some (rootQuestionKey test, getDialogues db test) ∧
      (qs.map Prod.fst).Nodup ∧
      log.Nodup ∧
      qs.map Prod.fst = rootQuestionKey test :: log ∧
      ads.length = (getDialogues db test).length := by
  have hsome := getRedirectionsAux_isSome db test
    (sufficientFuel db (getDialogues db test))
    [(rootQuestionKey test, getDialogues db test)] (getDialogues db test)
    (fun x hx => List.mem_of_mem_filter hx)
    (by
      unfold sufficientFuel
      have h1 : (freshTargets db [(rootQuestionKey test, getDialogues db test)]).length ≤
          (allTargets db).length := List.length_filter_le _ _
      have h2 := Nat.mul_le_mul_right (db.length + 1) h1
      generalize hA : (freshTargets db
        [(rootQuestionKey test, getDialogues db test)]).length * (db.length + 1) = A at h2 ⊢
      generalize hB : (allTargets db).length * (db.length + 1) = B at h2 ⊢
      omega)
  rw [Option.isSome_iff_exists] at hsome
  obtain ⟨r, hr⟩ := hsome
  obtain ⟨qs, log, ads⟩ := r
  obtain ⟨⟨ext, hext, hlog⟩, hlen, hnod⟩ := getRedirectionsAux_extends db test _ _ _ _ hr
  dsimp only at hext hlog hlen hnod
  have hmap : qs.map Prod.fst = rootQuestionKey test :: log := by
    rw [hext, List.map_append, hlog]
    rfl
  have hnodup : (qs.map Prod.fst).Nodup := hnod (by simp)
  refine ⟨qs, log, ads, hr, ?_, hnodup, ?_, hmap, hlen⟩
  · rw [hext]
    rfl
  · have h3 := hnodup
    rw [hmap] at h3
    exact (List.nodup_cons.mp h3).2

/-- C3 counterexample: with dialogue 1 (question `a`) redirecting to `b` and
dialogue 2 (question `b`) redirecting back to `a`, a search for `a` resolves
dialogue 2's target `a` as already present in the map, yet dialogue 2's
node carries no `_redirections` at all — the recorded list for `a` is not
reused as its redirections, contradicting the claim. -/
theorem redirect_cache_hit_counterexample :
    getRedirectionsRun
        [Dialogue.mk 1 "a" "$\x7bdialogue b\x7d" 0, Dialogue.mk 2 "b" "$\x7bdialogue a\x7d" 0]
        { question := some "a", answer := none, keyword := false } =
      some ([("a", [Dialogue.mk 1 "a" "$\x7bdialogue b\x7d" 0]),
             ("b", [Dialogue.mk 2 "b" "$\x7bdialogue a\x7d" 0])],
            ["b"],
            [ADialogue.mk (Dialogue.mk 1 "a" "$\x7bdialogue b\x7d" 0)
              (some [ADialogue.mk (Dialogue.mk 2 "b" "$\x7bdialogue a\x7d" 0) none])]) ∧
    (∀ l : List ADialogue,
      ADialogue.mk (Dialogue.mk 2 "b" "$\x7bdialogue a\x7d" 0) none ≠
        ADialogue.mk (Dialogue.mk 2 "b" "$\x7bdialogue a\x7d" 0) (some l)) :=
  ⟨rfl, fun l h => by injection h with h1 h2; exact Option.noConfusion h2⟩

/-- C3 corrected: when a dialogue's answer redirects to a question text that
is already present in the resolved map, the resolver skips the dialogue
entirely — it issues no store lookup, adds nothing to the map or the lookup
log, does not recurse into that question, and attaches no `_redirections`
to the dialogue (it does not reuse the recorded list); the rest of the list
is processed as if the dialogue were not a redirect. -/
theorem redirect_cache_hit_amended (db : List Dialogue) (test : DialogueTest)
    (fuel : Nat) (qs : List (String × List Dialogue)) (d : Dialogue) (rest : List Dialogue)
    (h1 : isRedirect d.answer = true)
    (h2 : (qs.map Prod.fst).contains (redirectTarget d.answer) = true) :
    getRedirectionsAux db test (fuel + 1) qs (d :: rest) =
      (getRedirectionsAux db test fuel qs rest).map
        (fun r => (r.1, r.2.1, ADialogue.mk d none :: r.2.2)) := by
  simp only [getRedirectionsAux, h1, if_true, h2]
  cases getRedirectionsAux db test fuel qs rest with
  | none => rfl
  | some r => obtain ⟨a, b, c⟩ := r; rfl

/-- Witness for the corrected C3 at a concrete cache-hit input. -/
theorem redirect_cache_hit_amended_witness :
    isRedirect (Dialogue.mk 2 "b" "$\x7bdialogue a\x7d" 0).answer = true ∧
    (([("a", ([] : List Dialogue))].map Prod.fst).contains
        (redirectTarget (Dialogue.mk 2 "b" "$\x7bdialogue a\x7d" 0).answer) = true) ∧
    getRedirectionsAux [] {} 2 [("a", [])] [Dialogue.mk 2 "b" "$\x7bdialogue a\x7d" 0] =
      (getRedirectionsAux [] {} 1 [("a", [])] []).map
        (fun r => (r.1, r.2.1,
          ADialogue.mk (Dialogue.mk 2 "b" "$\x7bdialogue a\x7d" 0) none :: r.2.2)) :=
  ⟨by decide, by decide,
    redirect_cache_hit_amended [] {} 1 [("a", [])]
      (Dialogue.mk 2 "b" "$\x7bdialogue a\x7d" 0) [] (by decide) (by decide)⟩

/-- C4 counterexample: the answer `" $\x7bdialogue b\x7d"` (leading space)
matches the claimed redirect pattern after trimming, yet resolution does not
treat the dialogue as a redirect: no store lookup is logged, no map entry is
added, and no `_redirections` is attached. -/
theorem redirect_detection_counterexample :
    matchesRedirectPattern " $\x7bdialogue b\x7d" = true ∧
    isRedirect " $\x7bdialogue b\x7d" = false ∧
    getRedirectionsRun [Dialogue.mk 1 "a" " $\x7bdialogue b\x7d" 0]
        { question := some "a", answer := none, keyword := false } =
      some ([("a", [Dialogue.mk 1 "a" " $\x7bdialogue b\x7d" 0])], [],
        [ADialogue.mk (Dialogue.mk 1 "a" " $\x7bdialogue b\x7d" 0) none]) :=
  ⟨by decide, by decide, rfl⟩

/-- C4 corrected: a dialogue is treated as a redirect during resolution
exactly when its answer starts with the literal 11-character marker (no
trimming of the answer, no closing-brace requirement); for such a dialogue
whose target is not yet in the map, the extracted target is the answer with
the marker and the final character removed and leading whitespace trimmed,
and the child lookup keeps the original answer constraint, disables keyword
matching, and sets the question to the extracted text; a dialogue whose
answer lacks the marker is passed over with no lookup and no annotation. -/
theorem redirect_detection_amended (db : List Dialogue) (test : DialogueTest)
    (fuel : Nat) (qs : List (String × List Dialogue)) (d : Dialogue) (rest : List Dialogue)
    (hfresh : (qs.map Prod.fst).contains (redirectTarget d.answer) = false) :
    getRedirectionsAux db test (fuel + 1) qs (d :: rest) =
      if hasPrefixList "$\x7bdialogue ".data d.answer.data then
        let q := String.mk (((d.answer.data.drop 11).dropLast).dropWhile Char.isWhitespace)
        let fetched := getDialogues db
          { question := some q, answer := test.answer, keyword := false }
        match getRedirectionsAux db test fuel (qs ++ [(q, fetched)]) fetched with
        | none => none
        | some (qs2, log1, children) =>
          match getRedirectionsAux db test fuel qs2 rest with
          | none => none
          | some (qs3, log2, ads) =>
            some (qs3, q :: (log1 ++ log2), ADialogue.mk d (some children) :: ads)
      else
        (getRedirectionsAux db test fuel qs rest).map
          (fun r => (r.1, r.2.1, ADialogue.mk d none :: r.2.2)) := by
  have hcond : hasPrefixList "$\x7bdialogue ".data d.answer.data = isRedirect d.answer := rfl
  rw [hcond]
  simp only [getRedirectionsAux]
  cases hred : isRedirect d.answer with
  | false =>
    simp only [Bool.false_eq_true, if_false]
    cases getRedirectionsAux db test fuel qs rest with
    | none => rfl
    | some r => obtain ⟨a, b, c⟩ := r; rfl
  | true =>
    simp only [if_true]
    rw [hfresh]
    simp only [Bool.false_eq_true, if_false]
    rfl

/-- Witness for the corrected C4 at a concrete fresh-redirect input. -/
theorem redirect_detection_amended_witness :
    (([] : List (String × List Dialogue)).map Prod.fst).contains
        (redirectTarget (Dialogue.mk 1 "a" "$\x7bdialogue b\x7d" 0).answer) = false ∧
    getRedirectionsAux [] {} 2 [] [Dialogue.mk 1 "a" "$\x7bdialogue b\x7d" 0] =
      (if hasPrefixList "$\x7bdialogue ".data
          (Dialogue.mk 1 "a" "$\x7bdialogue b\x7d" 0).answer.data then
        let q := String.mk ((((Dialogue.mk 1 "a" "$\x7bdialogue b\x7d" 0).answer.data.drop
          11).dropLast).dropWhile Char.isWhitespace)
        let fetched := getDialogues []
          { question := some q, answer := ({} : DialogueTest).answer, keyword := false }
        match getRedirectionsAux [] {} 1 ([] ++ [(q, fetched)]) fetched with
        | none => none
        | some (qs2, log1, children) =>
          match getRedirectionsAux [] {} 1 qs2 [] with
          | none => none
          | some (qs3, log2, ads) =>
            some (qs3, q :: (log1 ++ log2),
              ADialogue.mk (Dialogue.mk 1 "a" "$\x7bdialogue b\x7d" 0) (some children) :: ads)
      else
        (getRedirectionsAux [] {} 1 [] []).map
          (fun r => (r.1, r.2.1,
            ADialogue.mk (Dialogue.mk 1 "a" "$\x7bdialogue b\x7d" 0) none :: r.2.2))) :=
  ⟨by decide,
    redirect_detection_amended [] {} 1 []
      (Dialogue.mk 1 "a" "$\x7bdialogue b\x7d" 0) [] (by decide)⟩

/-- C2 counterexample: searching by question keyword (`questionPresent`), the
source groups two dialogues sharing the question text `q` into one group
keyed by that question text, whereas the claimed grouping by the dimension
not being searched (the answer text) would yield two groups keyed `x` and
`y`; the two outputs differ. -/
theorem merge_group_key_counterexample :
    mergeLines true 5 [⟨1, "q", "x", 0⟩, ⟨2, "q", "y", 0⟩] = ["q (#1, #2)"] ∧
    mergeLinesSpec true 5 [⟨1, "q", "x", 0⟩, ⟨2, "q", "y", 0⟩] = ["x (#1)", "y (#2)"] ∧
    mergeLines true 5 [⟨1, "q", "x", 0⟩, ⟨2, "q", "y", 0⟩] ≠
      mergeLinesSpec true 5 [⟨1, "q", "x", 0⟩, ⟨2, "q", "y", 0⟩] :=
  ⟨by decide, by decide, by decide⟩

/-- C2 corrected: the merge step groups dialogues by the dimension being
searched — when a question filter is present the group key is the dialogue's
question text (`original`), otherwise the dialogue's answer text — with each
group collecting the ids of exactly the dialogues carrying that key in
first-encountered order; a group renders as an id list when its size is at
most the merge threshold and as a count summary when it is larger. -/
theorem merge_grouping_amended (qp : Bool) (th : Nat) (ds : List Dialogue) (k : String) :
    ((buildIdMap qp ds).lookup k =
      if ((ds.filter (fun d => (if qp then d.original else d.answer) = k)).map
          (fun d => d.id)) = [] then none
      else some ((ds.filter (fun d => (if qp then d.original else d.answer) = k)).map
          (fun d => d.id))) ∧
    (∀ ids, (k, ids) ∈ buildIdMap qp ds → ids ≠ [] ∧
      (ids.length ≤ th →
        (k ++ " (#" ++ String.intercalate ", #" (ids.map toString) ++ ")") ∈
          mergeLines qp th ds) ∧
      (th < ids.length →
        (k ++ " (共 " ++ toString ids.length ++ " 个" ++ (if qp then "回答" else "问题") ++ ")")
          ∈ mergeLines qp th ds)) := by
  refine ⟨buildIdMap_lookup qp ds k, ?_⟩
  intro ids hmem
  refine ⟨buildIdMap_entry_ne_nil qp ds _ hmem, ?_, ?_⟩
  · intro hlen
    have := List.mem_map_of_mem (fun g : String × List Nat =>
      if g.2.length ≤ th then
        g.1 ++ " (#" ++ String.intercalate ", #" (g.2.map toString) ++ ")"
      else
        g.1 ++ " (共 " ++ toString g.2.length ++ " 个" ++
          (if qp then "回答" else "问题") ++ ")") hmem
    simpa [mergeLines, hlen] using this
  · intro hlen
    have := List.mem_map_of_mem (fun g : String × List Nat =>
      if g.2.length ≤ th then
        g.1 ++ " (#" ++ String.intercalate ", #" (g.2.map toString) ++ ")"
      else
        g.1 ++ " (共 " ++ toString g.2.length ++ " 个" ++
          (if qp then "回答" else "问题") ++ ")") hmem
    simpa [mergeLines, Nat.not_le.mpr hlen] using this

/-- Witness for C2 at concrete inputs: a group of exactly five ids renders
as an id list and a group of six renders as a count summary (threshold 5),
keyed by the question text. -/
theorem merge_grouping_amended_witness :
    (("q", [1, 2, 3, 4, 5]) ∈
        buildIdMap true ((List.range 5).map (fun i => ⟨i + 1, "q", toString i, 0⟩)) ∧
      "q (#1, #2, #3, #4, #5)" ∈
        mergeLines true 5 ((List.range 5).map (fun i => ⟨i + 1, "q", toString i, 0⟩))) ∧
    (("q", [1, 2, 3, 4, 5, 6]) ∈
        buildIdMap true ((List.range 6).map (fun i => ⟨i + 1, "q", toString i, 0⟩)) ∧
      "q (共 6 个回答)" ∈
        mergeLines true 5 ((List.range 6).map (fun i => ⟨i + 1, "q", toString i, 0⟩))) :=
  ⟨⟨by decide,
      by simpa using
        ((merge_grouping_amended true 5
            ((List.range 5).map (fun i => ⟨i + 1, "q", toString i, 0⟩)) "q").2
          [1, 2, 3, 4, 5] (by decide)).2.1 (by decide)⟩,
    ⟨by decide,
      by simpa using
        ((merge_grouping_amended true 5
            ((List.range 6).map (fun i => ⟨i + 1, "q", toString i, 0⟩)) "q").2
          [1, 2, 3, 4, 5, 6] (by decide)).2.2 (by decide)⟩⟩

/-- C5: pagination on concrete inputs — with 45 lines and `itemsPerPage = 20`,
page 1 is exactly source lines 1-20 under a header naming page 1 of 3 and
page 3 is exactly source lines 41-45 under a header naming page 3 of 3, each
followed by the fixed instructional trailer line; exactly 20 lines produce
the unpaginated single-header form with no page numbers and no trailer. -/
theorem pagination_concrete_pages :
    sendResultLines 20 1 "标题" ((List.range 45).map (fun i => toString (i + 1))) "" =
      ("标题（第 1/3 页）：" :: ((List.range 45).map (fun i => toString (i + 1))).take 20) ++
        [trailerLine] ∧
    sendResultLines 20 3 "标题" ((List.range 45).map (fun i => toString (i + 1))) "" =
      ("标题（第 3/3 页）：" :: ((List.range 45).map (fun i => toString (i + 1))).drop 40) ++
        [trailerLine] ∧
    sendResultLines 20 1 "标题" ((List.range 20).map (fun i => toString (i + 1))) "" =
      "标题：" :: (List.range 20).map (fun i => toString (i + 1)) := by
  refine ⟨by decide, by decide, by decide⟩

/-- C6: for every line list longer than the page size and every page number
between 1 and the page count, the rendered page body is non-empty; a page
number above the page count is not rejected or clamped — it yields an empty
body slice while the header and trailer are still rendered. -/
theorem pagination_page_bounds (itemsPerPage page : Nat) (lines : List String)
    (title suffix : String)
    (hipp : 0 < itemsPerPage) (hlong : itemsPerPage < lines.length) (hpage : 1 ≤ page) :
    (page ≤ pageCount itemsPerPage lines.length → pageBody itemsPerPage page lines ≠ []) ∧
    (pageCount itemsPerPage lines.length < page →
      pageBody itemsPerPage page lines = [] ∧
      sendResultLines itemsPerPage page title lines suffix =
        ((title ++ "（第 " ++ toString page ++ "/" ++
            toString (pageCount itemsPerPage lines.length) ++ " 页）：") ::
          (if suffix == "" then [] else [suffix])) ++ [trailerLine]) := by
  have hmul : (page - 1) * itemsPerPage = page * itemsPerPage - itemsPerPage :=
    Nat.sub_one_mul page itemsPerPage
  have hle : itemsPerPage ≤ page * itemsPerPage := Nat.le_mul_of_pos_left _ hpage
  constructor
  · intro hcnt
    have h2 : page * itemsPerPage ≤ lines.length + itemsPerPage - 1 :=
      (Nat.le_div_iff_mul_le hipp).mp hcnt
    have h1 : (page - 1) * itemsPerPage < lines.length := by omega
    unfold pageBody
    intro hcontra
    rw [List.take_eq_nil_iff] at hcontra
    rcases hcontra with h | h
    · omega
    · rw [List.drop_eq_nil_iff] at h
      omega
  · intro hcnt
    have hd := Nat.div_add_mod (lines.length + itemsPerPage - 1) itemsPerPage
    have hm := Nat.mod_lt (lines.length + itemsPerPage - 1) hipp
    have hcc : pageCount itemsPerPage lines.length * itemsPerPage ≤
        (page - 1) * itemsPerPage :=
      Nat.mul_le_mul_right _ (by omega)
    have h1 : lines.length ≤ (page - 1) * itemsPerPage := by
      unfold pageCount at hcc
      have hcomm : itemsPerPage * ((lines.length + itemsPerPage - 1) / itemsPerPage) =
          ((lines.length + itemsPerPage - 1) / itemsPerPage) * itemsPerPage :=
        Nat.mul_comm _ _
      omega
    have hbody : pageBody itemsPerPage page lines = [] := by
      unfold pageBody
      rw [List.drop_eq_nil_iff.mpr h1]
      exact List.take_nil
    refine ⟨hbody, ?_⟩
    unfold sendResultLines
    rw [if_neg (by omega), hbody]
    simp

/-- Witness for C6 at concrete inputs (page 2 of 3 in range, page 4 out of
range, for five lines at two per page). -/
theorem pagination_page_bounds_witness :
    (0 < 2 ∧ 2 < 5 ∧ 2 ≤ pageCount 2 5 ∧ pageBody 2 2 ["a", "b", "c", "d", "e"] ≠ []) ∧
    (pageCount 2 5 < 4 ∧ pageBody 2 4 ["a", "b", "c", "d", "e"] = []) :=
  ⟨⟨by decide, by decide, by decide,
      (pagination_page_bounds 2 2 ["a", "b", "c", "d", "e"] "T" ""
        (by decide) (by decide) (by decide)).1 (by decide)⟩,
    ⟨by decide,
      ((pagination_page_bounds 2 4 ["a", "b", "c", "d", "e"] "T" ""
        (by decide) (by decide) (by decide)).2 (by decide)).1⟩⟩

theorem formatQuestionAnswers_length (hook : Dialogue → SearchDetails) (cfg : TeachConfig)
    (ads : List ADialogue) :
    (formatQuestionAnswers hook cfg ads).length = ads.length := by
  simp [formatQuestionAnswers]

theorem formatAnswers_length (hook : Dialogue → SearchDetails) (cfg : TeachConfig)
    (padding : Nat) : ∀ (ads : List ADialogue),
    (formatAnswers hook cfg padding ads).length = ads.length := by
  intro ads
  induction ads with
  | nil => simp [formatAnswers]
  | cons a rest ih =>
    obtain ⟨d, redir⟩ := a
    cases redir with
    | none => rw [formatAnswers.eq_2]; simp [ih]
    | some children => rw [formatAnswers.eq_3]; simp [ih]

theorem resolveRedirections_length (db : List Dialogue) (test : DialogueTest)
    (ds : List Dialogue) : (resolveRedirections db test ds).length = ds.length := by
  unfold resolveRedirections
  cases heq : getRedirectionsAux db test (sufficientFuel db ds) [(rootQuestionKey test, ds)] ds
    with
  | none => simp
  | some r =>
    obtain ⟨qs, log, ads⟩ := r
    obtain ⟨_, hlen, _⟩ := getRedirectionsAux_extends db test _ _ _ _ heq
    exact hlen

theorem insertId_ne_nil (m : List (String × List Nat)) (key : String) (i : Nat) :
    insertId m key i ≠ [] := by
  cases m with
  | nil => simp [insertId]
  | cons p rest =>
    obtain ⟨pk, pids⟩ := p
    simp only [insertId]
    split <;> simp

theorem buildIdMap_ne_nil (qp : Bool) (ds : List Dialogue) (h : ds ≠ []) :
    buildIdMap qp ds ≠ [] := by
  unfold buildIdMap
  suffices hgo : ∀ (ds : List Dialogue) (m : List (String × List Nat)), m ≠ [] →
      ds.foldl (fun m d => insertId m (mergeKey qp d) d.id) m ≠ [] by
    cases ds with
    | nil => exact absurd rfl h
    | cons d rest =>
      rw [List.foldl_cons]
      exact hgo rest _ (insertId_ne_nil [] _ d.id)
  intro ds
  induction ds with
  | nil => intro m hm; simpa using hm
  | cons d rest ih =>
    intro m hm
    rw [List.foldl_cons]
    exact ih _ (insertId_ne_nil m _ d.id)

theorem mergeLines_ne_nil (qp : Bool) (th : Nat) (ds : List Dialogue) (h : ds ≠ []) :
    mergeLines qp th ds ≠ [] := by
  unfold mergeLines
  intro hc
  exact buildIdMap_ne_nil qp ds h (List.map_eq_nil_iff.mp hc)

/-- C9 counterexample: the pipe form with a non-empty result does not produce
a titled listing — it forwards the matched ids to command execution. -/
theorem search_pipe_counterexample :
    search [Dialogue.mk 1 "a" "b" 0] (fun _ => {}) {} "" { pipe := some "-r" } =
      SearchOutput.piped [1] ∧
    (∀ title lines suffix,
      SearchOutput.piped [1] ≠ SearchOutput.result title lines suffix) :=
  ⟨by decide, fun _ _ _ h => SearchOutput.noConfusion h⟩

/-- C9 corrected: for every query shape, an empty store result makes `search`
send the explicit no-results message of that shape (never a titled listing
with an empty body); a non-empty result produces a titled listing with a
non-empty body for the seven message shapes, while the pipe form instead
forwards the matched dialogue ids to command execution. -/
theorem search_results_amended (db : List Dialogue) (hook : Dialogue → SearchDetails)
    (cfg : TeachConfig) (probText : String) (opts : SearchOptions) :
    (getDialogues db (testOf opts) = [] →
      search db hook cfg probText opts = .plain (noResultsMessage opts)) ∧
    (getDialogues db (testOf opts) ≠ [] →
      (strTruthy opts.pipe = true →
        search db hook cfg probText opts =
          .piped ((getDialogues db (testOf opts)).map (fun d => d.id))) ∧
      (strTruthy opts.pipe = false →
        ∃ title lines suffix,
          search db hook cfg probText opts = .result title lines suffix ∧
          lines ≠ [])) := by
  constructor
  · intro hempty
    unfold search noResultsMessage
    cases hpipe : strTruthy opts.pipe <;>
      cases hq : strTruthy opts.question <;>
        cases ha : strTruthy opts.answer <;>
          cases hkw : opts.keyword <;>
            simp [hempty]
  · intro hne
    have hie : (getDialogues db (testOf opts)).isEmpty = false := by
      cases hgd : getDialogues db (testOf opts) with
      | nil => exact absurd hgd hne
      | cons x xs => rfl
    have hads : (if opts.recursive then
        resolveRedirections db (testOf opts) (getDialogues db (testOf opts))
      else (getDialogues db (testOf opts)).map (fun d => ADialogue.mk d none)).length =
        (getDialogues db (testOf opts)).length := by
      cases opts.recursive
      · simp
      · simp [resolveRedirections_length]
    have hpos : 0 < (getDialogues db (testOf opts)).length := List.length_pos.mpr hne
    constructor
    · intro hpipe
      unfold search
      simp [hpipe, hie]
    · intro hpipe
      unfold search
      rw [hpipe]
      simp only [Bool.false_eq_true, if_false, hie]
      have hfqa : formatQuestionAnswers hook cfg
          (if opts.recursive then
            resolveRedirections db (testOf opts) (getDialogues db (testOf opts))
          else (getDialogues db (testOf opts)).map (fun d => ADialogue.mk d none)) ≠ [] := by
        intro hc
        have := formatQuestionAnswers_length hook cfg
          (if opts.recursive then
            resolveRedirections db (testOf opts) (getDialogues db (testOf opts))
          else (getDialogues db (testOf opts)).map (fun d => ADialogue.mk d none))
        rw [hc, hads] at this
        simp only [List.length_nil] at this
        omega
      have hfa : formatAnswers hook cfg 0
          (if opts.recursive then
            resolveRedirections db (testOf opts) (getDialogues db (testOf opts))
          else (getDialogues db (testOf opts)).map (fun d => ADialogue.mk d none)) ≠ [] := by
        intro hc
        have := formatAnswers_length hook cfg 0
          (if opts.recursive then
            resolveRedirections db (testOf opts) (getDialogues db (testOf opts))
          else (getDialogues db (testOf opts)).map (fun d => ADialogue.mk d none))
        rw [hc, hads] at this
        simp only [List.length_nil] at this
        omega
      have hmapne : (getDialogues db (testOf opts)).map
          (fun d => formatHead hook d false ++ d.original) ≠ [] := by
        intro hc
        exact hne (List.map_eq_nil_iff.mp hc)
      cases hq : strTruthy opts.question <;>
        cases ha : strTruthy opts.answer <;>
          cases hkw : opts.keyword <;>
            simp only [Bool.not_false, Bool.not_true, Bool.and_self, Bool.and_false,
              Bool.false_and, Bool.true_and, Bool.and_true, Bool.or_false, Bool.or_true,
              Bool.false_or, Bool.true_or, Bool.false_eq_true, Bool.true_eq_false,
              if_true, if_false, ite_true, ite_false]
      · exact ⟨_, _, _, rfl, hfqa⟩
      · exact ⟨_, _, _, rfl, hfqa⟩
      · exact ⟨_, _, _, rfl, hmapne⟩
      · refine ⟨_, _, _, rfl, ?_⟩
        cases ham : opts.autoMerge
        · simp only [Bool.not_false, if_true]
          exact hfqa
        · simp only [Bool.not_true, Bool.false_eq_true, if_false]
          exact mergeLines_ne_nil _ _ _ hne
      · exact ⟨_, _, _, rfl, hfa⟩
      · refine ⟨_, _, _, rfl, ?_⟩
        cases ham : opts.autoMerge
        · simp only [Bool.not_false, if_true]
          exact hfqa
        · simp only [Bool.not_true, Bool.false_eq_true, if_false]
          exact mergeLines_ne_nil _ _ _ hne
      · exact ⟨_, _, _, rfl, by simp⟩
      · exact ⟨_, _, _, rfl, hfqa⟩

/-- Witness for the corrected C9: an empty result yields the shape-specific
message, a non-empty piped search forwards ids, and a non-empty exact
question search yields a listing with a non-empty body. -/
theorem search_results_amended_witness :
    (getDialogues [] (testOf { question := some "a", original := some "a" }) = [] ∧
      search [] (fun _ => {}) {} "" { question := some "a", original := some "a" } =
        .plain (noResultsMessage { question := some "a", original := some "a" })) ∧
    (getDialogues [Dialogue.mk 1 "a" "b" 0] (testOf { pipe := some "-r" }) ≠ [] ∧
      search [Dialogue.mk 1 "a" "b" 0] (fun _ => {}) {} "" { pipe := some "-r" } =
        .piped ((getDialogues [Dialogue.mk 1 "a" "b" 0]
          (testOf { pipe := some "-r" })).map (fun d => d.id))) ∧
    (∃ title lines suffix,
      search [Dialogue.mk 1 "a" "b" 0] (fun _ => {}) {} ""
        { question := some "a", original := some "a" } = .result title lines suffix ∧
      lines ≠ []) :=
  ⟨⟨by decide,
      (search_results_amended [] (fun _ => {}) {} ""
        { question := some "a", original := some "a" }).1 (by decide)⟩,
    ⟨by decide,
      ((search_results_amended [Dialogue.mk 1 "a" "b" 0] (fun _ => {}) {} ""
        { pipe := some "-r" }).2 (by decide)).1 (by decide)⟩,
    ((search_results_amended [Dialogue.mk 1 "a" "b" 0] (fun _ => {}) {} ""
      { question := some "a", original := some "a" }).2 (by decide)).2 (by decide)⟩

end Teach
